import Mathlib

/-
  Verification of the command-line shell front-end (src/shell.c).

  The development shallowly embeds the shell routines that the claims
  concern: the CSV renderer, the column-mode width logic, the execution
  pipeline error handling, the schema-dump corruption retry, the bulk
  load loop, the meta-command tokenizer, the .mode dispatcher and the
  input-processing loop.  Machine strings are modelled as lists of bytes
  (List Nat) where byte values matter and as List Char / String where
  only the characters matter; fallible engine calls are abstracted as
  result-code valued functions supplied as parameters.
-/

set_option maxHeartbeats 1000000
set_option maxRecDepth 100000

/- ===================================================================
   Section: CSV renderer (src/shell.c lines 440-493)
   =================================================================== -/

/-- Byte classification table from shell.c lines 440-457: a field whose
byte indexes a 1 in this table must be quoted for CSV. -/
def needCsvQuote : List Nat := [
  1, 1, 1, 1, 1, 1, 1, 1,   1, 1, 1, 1, 1, 1, 1, 1,
  1, 1, 1, 1, 1, 1, 1, 1,   1, 1, 1, 1, 1, 1, 1, 1,
  1, 0, 1, 0, 0, 0, 0, 1,   0, 0, 0, 0, 0, 0, 0, 0,
  0, 0, 0, 0, 0, 0, 0, 0,   0, 0, 0, 0, 0, 0, 0, 0,
  0, 0, 0, 0, 0, 0, 0, 0,   0, 0, 0, 0, 0, 0, 0, 0,
  0, 0, 0, 0, 0, 0, 0, 0,   0, 0, 0, 0, 0, 0, 0, 0,
  0, 0, 0, 0, 0, 0, 0, 0,   0, 0, 0, 0, 0, 0, 0, 0,
  0, 0, 0, 0, 0, 0, 0, 0,   0, 0, 0, 0, 0, 0, 0, 1,
  1, 1, 1, 1, 1, 1, 1, 1,   1, 1, 1, 1, 1, 1, 1, 1,
  1, 1, 1, 1, 1, 1, 1, 1,   1, 1, 1, 1, 1, 1, 1, 1,
  1, 1, 1, 1, 1, 1, 1, 1,   1, 1, 1, 1, 1, 1, 1, 1,
  1, 1, 1, 1, 1, 1, 1, 1,   1, 1, 1, 1, 1, 1, 1, 1,
  1, 1, 1, 1, 1, 1, 1, 1,   1, 1, 1, 1, 1, 1, 1, 1,
  1, 1, 1, 1, 1, 1, 1, 1,   1, 1, 1, 1, 1, 1, 1, 1,
  1, 1, 1, 1, 1, 1, 1, 1,   1, 1, 1, 1, 1, 1, 1, 1,
  1, 1, 1, 1, 1, 1, 1, 1,   1, 1, 1, 1, 1, 1, 1, 1 ]

/-- Look up a byte in the needCsvQuote table. -/
def needCsvQuoteAt (c : Nat) : Bool := needCsvQuote.getD c 0 = 1

/-- One character of the scan condition in output_csv (lines 471-478):
a byte forces quoting if flagged by the table, or if it equals the first
separator byte and the separator is one byte long or the whole value
starts with the separator (the memcmp in the source compares the start
of the value, not the position of the scan). -/
def csvTrigger (sep z : List Nat) (c : Nat) : Bool :=
  needCsvQuoteAt c ||
    ((match sep with
      | s :: _ => c == s
      | [] => false) && (sep.length == 1 || sep.isPrefixOf z))

/-- Quote-doubling body of the quoted branch of output_csv
(lines 481-484): every double-quote byte (34) is emitted twice. -/
def csvQuoteBody : List Nat → List Nat
  | [] => []
  | c :: r => (if c = 34 then [34, 34] else [c]) ++ csvQuoteBody r

/-- output_csv (lines 464-493), non-null branch, as a pure function from
the separator and the field bytes to the emitted bytes.  The source scans
for a trigger byte and then tests i==0, which is true exactly when a
trigger was found or the value is empty. -/
def output_csv (sep z : List Nat) : List Nat :=
  if z.isEmpty || z.any (csvTrigger sep z) then
    34 :: csvQuoteBody z ++ [34]
  else z

/-- Boolean substring test on byte lists (helper for stating the spec
wording of claim C2). -/
def bytesContain (p : List Nat) : List Nat → Bool
  | [] => p.isEmpty
  | c :: t => p.isPrefixOf (c :: t) || bytesContain p t

/-- Quoting predicate as worded by the spec for claim C2: the value
contains the active separator, a double quote, or a control or high-bit
byte (DEL counted as a control byte). -/
def specCsvNeedsQuote (sep z : List Nat) : Bool :=
  bytesContain sep z || z.any (fun c => c == 34 || c < 32 || 127 ≤ c)

theorem needCsvQuoteAt_char (c : Nat) (h : c < 256) :
    needCsvQuoteAt c = (c ≤ 32 || c == 34 || c == 39 || 127 ≤ c) := by
  revert h
  revert c
  decide

theorem csvQuoteBody_length (z : List Nat) : z.length ≤ (csvQuoteBody z).length := by
  induction z with
  | nil => simp [csvQuoteBody]
  | cons c r ih =>
    by_cases h : c = 34 <;> simp [csvQuoteBody, h] <;> omega

/-- Characterization, in arithmetic terms, of the condition under which
output_csv actually quotes a field: the field is empty, or it holds a
byte that is at most 32 (all control bytes and the space), a double
quote, a single quote, DEL or a high-bit byte, or the first byte of the
separator when the separator has one byte or the field starts with the
whole separator. -/
def csvQuoteCond (sep z : List Nat) : Prop :=
  z = [] ∨ ∃ c ∈ z, c ≤ 32 ∨ c = 34 ∨ c = 39 ∨ 127 ≤ c ∨
    (sep.head? = some c ∧ (sep.length = 1 ∨ sep.isPrefixOf z = true))

theorem csvTrigger_iff (sep z : List Nat) (c : Nat) (h : c < 256) :
    csvTrigger sep z c = true ↔
      (c ≤ 32 ∨ c = 34 ∨ c = 39 ∨ 127 ≤ c ∨
        (sep.head? = some c ∧ (sep.length = 1 ∨ sep.isPrefixOf z = true))) := by
  cases sep with
  | nil =>
    simp only [csvTrigger, needCsvQuoteAt_char c h, List.head?]
    simp only [Bool.or_eq_true, Bool.and_eq_true, beq_iff_eq, decide_eq_true_eq]
    constructor
    · rintro ((((h1 | h2) | h3) | h4) | hcontra)
      · exact Or.inl h1
      · exact Or.inr (Or.inl h2)
      · exact Or.inr (Or.inr (Or.inl h3))
      · exact Or.inr (Or.inr (Or.inr (Or.inl h4)))
      · exact absurd hcontra.1 (by simp)
    · rintro (h1 | h2 | h3 | h4 | hcontra)
      · exact Or.inl (Or.inl (Or.inl (Or.inl h1)))
      · exact Or.inl (Or.inl (Or.inl (Or.inr h2)))
      · exact Or.inl (Or.inl (Or.inr h3))
      · exact Or.inl (Or.inr h4)
      · exact absurd hcontra.1 (by simp)
  | cons s ss =>
    simp only [csvTrigger, needCsvQuoteAt_char c h, List.head?]
    simp only [Bool.or_eq_true, Bool.and_eq_true, beq_iff_eq, decide_eq_true_eq,
      Option.some.injEq, List.length_cons]
    constructor
    · rintro ((((h1 | h2) | h3) | h4) | ⟨hc, hrest⟩)
      · exact Or.inl h1
      · exact Or.inr (Or.inl h2)
      · exact Or.inr (Or.inr (Or.inl h3))
      · exact Or.inr (Or.inr (Or.inr (Or.inl h4)))
      · refine Or.inr (Or.inr (Or.inr (Or.inr ⟨hc.symm, ?_⟩)))
        rcases hrest with h5 | h6
        · exact Or.inl (by omega)
        · exact Or.inr h6
    · rintro (h1 | h2 | h3 | h4 | ⟨hc, hrest⟩)
      · exact Or.inl (Or.inl (Or.inl (Or.inl h1)))
      · exact Or.inl (Or.inl (Or.inl (Or.inr h2)))
      · exact Or.inl (Or.inl (Or.inr h3))
      · exact Or.inl (Or.inr h4)
      · refine Or.inr ⟨hc.symm, ?_⟩
        rcases hrest with h5 | h6
        · exact Or.inl (by omega)
        · exact Or.inr h6

theorem output_csv_cond (sep z : List Nat) (hz : ∀ c ∈ z, c < 256) :
    (z.isEmpty || z.any (csvTrigger sep z)) = true ↔ csvQuoteCond sep z := by
  simp only [Bool.or_eq_true, List.isEmpty_iff, List.any_eq_true, csvQuoteCond]
  constructor
  · rintro (h0 | ⟨c, hc, ht⟩)
    · exact Or.inl h0
    · exact Or.inr ⟨c, hc, (csvTrigger_iff sep z c (hz c hc)).mp ht⟩
  · rintro (h0 | ⟨c, hc, ht⟩)
    · exact Or.inl h0
    · exact Or.inr ⟨c, hc, (csvTrigger_iff sep z c (hz c hc)).mpr ht⟩

theorem output_csv_quoted_ne (_sep z : List Nat) :
    34 :: csvQuoteBody z ++ [34] ≠ z := by
  intro h
  have hlen := congrArg List.length h
  have := csvQuoteBody_length z
  simp only [List.length_cons, List.length_append, List.length_cons,
    List.length_nil] at hlen
  omega

/-- Claim C2 (amended): for every field value rendered in csv mode, the
renderer wraps the value in double quotes (doubling every embedded
double quote) if and only if the value is empty or contains a byte that
is a control byte, a space, a double quote, a single quote, DEL or a
high-bit byte, or the first byte of the active separator (when the
separator is a single byte or the value starts with the whole
separator); a value meeting none of these is written unquoted and
unmodified. -/
theorem claim_C2 (sep z : List Nat) (hz : ∀ c ∈ z, c < 256) :
    (output_csv sep z = 34 :: csvQuoteBody z ++ [34] ↔ csvQuoteCond sep z) ∧
    (¬ csvQuoteCond sep z → output_csv sep z = z) := by
  have hcond := output_csv_cond sep z hz
  by_cases h : (z.isEmpty || z.any (csvTrigger sep z)) = true
  · refine ⟨⟨fun _ => hcond.mp h, fun _ => by simp [output_csv, h]⟩, ?_⟩
    intro hnot
    exact absurd (hcond.mp h) hnot
  · have hout : output_csv sep z = z := by
      simp only [output_csv]
      rw [if_neg h]
    refine ⟨⟨?_, ?_⟩, fun _ => hout⟩
    · intro hq
      exact absurd (hq.symm.trans hout) (output_csv_quoted_ne sep z)
    · intro hc
      exact absurd (hcond.mpr hc) h

theorem claim_C2_witness :
    (output_csv [44] [97] = 34 :: csvQuoteBody [97] ++ [34] ↔ csvQuoteCond [44] [97]) ∧
    (¬ csvQuoteCond [44] [97] → output_csv [44] [97] = [97]) :=
  claim_C2 [44] [97] (by decide)

/-- Claim C2 counterexample: the field with bytes 97 32 98 (text a b)
under the default one-byte separator 44 contains no separator byte, no
double quote and no control or high-bit byte, so the claim as stated
requires it to be written unquoted and unmodified; output_csv quotes it,
because the needCsvQuote table also flags the space byte 32. -/
theorem claim_C2_counterexample :
    specCsvNeedsQuote [44] [97, 32, 98] = false ∧
    output_csv [44] [97, 32, 98] = [34, 97, 32, 98, 34] ∧
    ([34, 97, 32, 98, 34] : List Nat) ≠ [97, 32, 98] := by decide

/- ===================================================================
   Section: schema dump corruption retry (src/shell.c lines 1150-1153
   and 1165-1194)
   =================================================================== -/

/-- Result code for a corruption signal. -/
def SQLITE_CORRUPT : Nat := 11

/-- run_schema_dump_query (lines 1165-1194) with the engine abstracted
as a result-code valued function on query text.  The returned pair is
the list of query texts handed to the engine, in order, and the result
code the routine returns: on a corruption result the same query text is
rerun once with the ORDER BY suffix appended and never again. -/
def run_schema_dump_query (ex : String → Nat) (zQuery : String) :
    List String × Nat :=
  let rc := ex zQuery
  if rc = SQLITE_CORRUPT then
    let zQ2 := zQuery ++ (" ORDER BY rowid DESC")
    let rc2 := ex zQ2
    ([zQuery, zQ2], if rc2 ≠ 0 then rc2 else SQLITE_CORRUPT)
  else ([zQuery], rc)

/-- Corruption retry in dump_callback (lines 1150-1153) with
run_table_dump_query abstracted as a result-code valued function on the
select text: the select is rerun once with the ORDER BY suffix appended
when the first run signals corruption, and the retried run is never
rerun.  Returns the list of select texts handed to the table dumper. -/
def dump_table_retry (runq : String → Nat) (zSelect : String) : List String :=
  let rc := runq zSelect
  if rc = SQLITE_CORRUPT then
    [zSelect, zSelect ++ (" ORDER BY rowid DESC")]
  else [zSelect]

/-- Claim C3: whenever a schema-dump catalog query or a per-table
row-dump query fails with the corruption error code, the same query text
is rerun exactly once with the ORDER BY rowid DESC suffix appended, and
the retried query is never retried again regardless of its outcome: in
both routines the executed-query trace is the original query alone on a
non-corrupt first result, and exactly the original query followed by the
suffixed query otherwise, so at most two queries ever run and the
suffixed query appears at most once. -/
theorem claim_C3 (ex runq : String → Nat) (zQuery zSelect : String) :
    ((run_schema_dump_query ex zQuery).1 =
      if ex zQuery = SQLITE_CORRUPT then
        [zQuery, zQuery ++ (" ORDER BY rowid DESC")]
      else [zQuery]) ∧
    (run_schema_dump_query ex zQuery).1.length ≤ 2 ∧
    (dump_table_retry runq zSelect =
      if runq zSelect = SQLITE_CORRUPT then
        [zSelect, zSelect ++ (" ORDER BY rowid DESC")]
      else [zSelect]) ∧
    (dump_table_retry runq zSelect).length ≤ 2 := by
  refine ⟨?_, ?_, ?_, ?_⟩ <;>
    simp only [run_schema_dump_query, dump_table_retry] <;>
    by_cases h1 : ex zQuery = SQLITE_CORRUPT <;>
    by_cases h2 : runq zSelect = SQLITE_CORRUPT <;>
    simp [h1, h2]

/- ===================================================================
   Section: execution pipeline error reporting (src/shell.c
   lines 941-1071, claim lines 1051-1061)
   =================================================================== -/

/-- Result codes used by the execution pipeline. -/
def SQLITE_NOMEM : Nat := 7

/-- Outcome of preparing the next statement from the remaining SQL
text: a prepare failure, an empty statement (comment or whitespace), or
a prepared statement summarized by the result code recorded by the
stepping phase (lines 996-1049, out-of-memory included) and the result
code of its finalize call (line 1054). -/
inductive PrepOutcome where
  | prepErr : PrepOutcome
  | empty : PrepOutcome
  | stmt (stepRc finRc : Nat) : PrepOutcome

/-- shell_exec (lines 941-1071) over the abstracted sequence of prepare
outcomes.  Returns the final result code, the number of prepared
statements actually executed, and whether an error message was stored
for the caller.  A prepare failure stores the engine message and stops
(modelled with result code 1); for an executed statement the finalize
result replaces the step result unless the step result was
SQLITE_NOMEM (line 1055), and a non-OK result after that stores the
engine message and stops the remaining text (lines 1056-1061 with the
loop condition on line 958). -/
def shell_exec_model : List PrepOutcome → Nat × Nat × Bool
  | [] => (0, 0, false)
  | .prepErr :: _ => (1, 0, true)
  | .empty :: rest => shell_exec_model rest
  | .stmt stepRc finRc :: rest =>
    let rc := if stepRc = SQLITE_NOMEM then stepRc else finRc
    if rc = 0 then
      let r := shell_exec_model rest
      (r.1, r.2.1 + 1, r.2.2)
    else (rc, 1, true)

/-- Claim C4: for every statement executed by the pipeline, a step-time
out-of-memory result is not replaced by the finalize result (the outcome
is the same whatever finalize returns, and the reported code stays
SQLITE_NOMEM); otherwise the finalize result becomes the statement
result; and any non-OK result after finalize halts execution of the
remaining SQL text with the engine error message stored for the
caller (exactly one statement of the remaining list runs). -/
theorem claim_C4 (stepRc finRc : Nat) (rest : List PrepOutcome) :
    (stepRc = SQLITE_NOMEM →
      (∀ finRc2 : Nat, shell_exec_model (.stmt stepRc finRc :: rest) =
        shell_exec_model (.stmt stepRc finRc2 :: rest)) ∧
      shell_exec_model (.stmt stepRc finRc :: rest) = (SQLITE_NOMEM, 1, true)) ∧
    (stepRc ≠ SQLITE_NOMEM → finRc ≠ 0 →
      shell_exec_model (.stmt stepRc finRc :: rest) = (finRc, 1, true)) ∧
    (stepRc ≠ SQLITE_NOMEM → finRc = 0 →
      shell_exec_model (.stmt stepRc finRc :: rest) =
        ((shell_exec_model rest).1, (shell_exec_model rest).2.1 + 1,
          (shell_exec_model rest).2.2)) := by
  refine ⟨?_, ?_, ?_⟩
  · intro h
    subst h
    constructor
    · intro finRc2
      simp [shell_exec_model, SQLITE_NOMEM]
    · simp [shell_exec_model, SQLITE_NOMEM]
  · intro h hf
    simp [shell_exec_model, h, hf]
  · intro h hf
    subst hf
    simp [shell_exec_model, h]

theorem claim_C4_witness :
    ((7 = SQLITE_NOMEM →
      (∀ finRc2 : Nat, shell_exec_model (.stmt 7 5 :: [.stmt 0 0]) =
        shell_exec_model (.stmt 7 finRc2 :: [.stmt 0 0])) ∧
      shell_exec_model (.stmt 7 5 :: [.stmt 0 0]) = (SQLITE_NOMEM, 1, true)) ∧
    (7 ≠ SQLITE_NOMEM → 5 ≠ 0 →
      shell_exec_model (.stmt 7 5 :: [.stmt 0 0]) = (5, 1, true)) ∧
    (7 ≠ SQLITE_NOMEM → 5 = 0 →
      shell_exec_model (.stmt 7 5 :: [.stmt 0 0]) =
        ((shell_exec_model [.stmt 0 0]).1,
          (shell_exec_model [.stmt 0 0]).2.1 + 1,
          (shell_exec_model [.stmt 0 0]).2.2))) ∧
    ((101 = SQLITE_NOMEM →
      (∀ finRc2 : Nat, shell_exec_model (.stmt 101 0 :: [.stmt 0 0]) =
        shell_exec_model (.stmt 101 finRc2 :: [.stmt 0 0])) ∧
      shell_exec_model (.stmt 101 0 :: [.stmt 0 0]) = (SQLITE_NOMEM, 1, true)) ∧
    (101 ≠ SQLITE_NOMEM → 0 ≠ 0 →
      shell_exec_model (.stmt 101 0 :: [.stmt 0 0]) = (0, 1, true)) ∧
    (101 ≠ SQLITE_NOMEM → 0 = 0 →
      shell_exec_model (.stmt 101 0 :: [.stmt 0 0]) =
        ((shell_exec_model [.stmt 0 0]).1,
          (shell_exec_model [.stmt 0 0]).2.1 + 1,
          (shell_exec_model [.stmt 0 0]).2.2))) :=
  ⟨claim_C4 7 5 [.stmt 0 0], claim_C4 101 0 [.stmt 0 0]⟩

/- ===================================================================
   Section: session record and the .mode meta-command (src/shell.c
   lines 253-278, 711-745, 1844-1883)
   =================================================================== -/

/-- Output mode constants (lines 283-291). -/
def MODE_Line : Nat := 0
def MODE_Column : Nat := 1
def MODE_List : Nat := 2
def MODE_Semi : Nat := 3
def MODE_Html : Nat := 4
def MODE_Insert : Nat := 5
def MODE_Tcl : Nat := 6
def MODE_Csv : Nat := 7
def MODE_Explain : Nat := 8

/-- Session state touched by the renderer and the dispatcher
(struct callback_data, lines 253-278), restricted to the fields the
claims quantify over.  The output sink and its file name stand in for
the FILE pointer and outfile buffer. -/
structure CallbackData where
  echoOn : Bool
  statsOn : Bool
  cnt : Nat
  mode : Nat
  showHeader : Bool
  zDestTable : List Char
  separator : String
  colWidth : Nat → Int
  nullvalue : String
  out : Nat
  outfile : String

/-- Quote-escaping loop of set_table_name (lines 736-741): every single
quote in the name is doubled. -/
def escapeTableQuotes : List Char → List Char
  | [] => []
  | c :: r =>
    if c = Char.ofNat 39 then c :: c :: escapeTableQuotes r
    else c :: escapeTableQuotes r

/-- set_table_name (lines 711-745) as a pure function from the new name
to the stored destination-table text: the name is wrapped in single
quotes when its first character is neither a letter nor an underscore
or any character is neither alphanumeric nor an underscore, and every
embedded single quote is doubled. -/
def set_table_name (zName : List Char) : List Char :=
  let needQuote :=
    (match zName with
     | [] => true
     | c :: _ => !(c.isAlpha) && c != Char.ofNat 95) ||
    zName.any (fun c => !(c.isAlphanum) && c != Char.ofNat 95)
  let body := escapeTableQuotes zName
  if needQuote then Char.ofNat 39 :: body ++ [Char.ofNat 39] else body

/-- The .mode meta-command with exactly one argument (lines 1844-1871).
Returns the new session state and the command status: each recognized
name assigns the mode field, the tcl, csv and tabs names also overwrite
the separator, the insert name also resets the destination table to the
literal name table, and an unrecognized name changes nothing and
returns status 1. -/
def do_meta_command_mode (p : CallbackData) (arg : String) :
    CallbackData × Nat :=
  if arg = ("line") ∨ arg = ("lines") then
    ({ p with mode := MODE_Line }, 0)
  else if arg = ("column") ∨ arg = ("columns") then
    ({ p with mode := MODE_Column }, 0)
  else if arg = ("list") then
    ({ p with mode := MODE_List }, 0)
  else if arg = ("html") then
    ({ p with mode := MODE_Html }, 0)
  else if arg = ("tcl") then
    ({ p with mode := MODE_Tcl, separator := (" ") }, 0)
  else if arg = ("csv") then
    ({ p with mode := MODE_Csv, separator := (",") }, 0)
  else if arg = ("tabs") then
    ({ p with mode := MODE_List, separator := ("\t") }, 0)
  else if arg = ("insert") then
    ({ p with mode := MODE_Insert, zDestTable := set_table_name (String.data ("table")) }, 0)
  else (p, 1)

/-- Claim C8: executing .mode csv sets the output mode to csv and the
separator to a comma; a subsequent .mode tabs sets the output mode (to
the list mode the source uses for tab output) and the separator to a
tab; and in both steps every other session field (header flag, null
text, column widths, echo, stats, destination table, output sink) is
left unchanged. -/
theorem claim_C8 (p : CallbackData) :
    ((do_meta_command_mode p ("csv")).1.mode = MODE_Csv ∧
     (do_meta_command_mode p ("csv")).1.separator = (",") ∧
     (do_meta_command_mode p ("csv")).2 = 0) ∧
    ((do_meta_command_mode (do_meta_command_mode p ("csv")).1 ("tabs")).1.mode
        = MODE_List ∧
     (do_meta_command_mode (do_meta_command_mode p ("csv")).1 ("tabs")).1.separator
        = ("\t") ∧
     (do_meta_command_mode (do_meta_command_mode p ("csv")).1 ("tabs")).2 = 0) ∧
    (∀ q : CallbackData, ∀ a : String,
      (a = ("csv") ∨ a = ("tabs")) →
      ((do_meta_command_mode q a).1.echoOn = q.echoOn ∧
       (do_meta_command_mode q a).1.statsOn = q.statsOn ∧
       (do_meta_command_mode q a).1.cnt = q.cnt ∧
       (do_meta_command_mode q a).1.showHeader = q.showHeader ∧
       (do_meta_command_mode q a).1.zDestTable = q.zDestTable ∧
       (do_meta_command_mode q a).1.colWidth = q.colWidth ∧
       (do_meta_command_mode q a).1.nullvalue = q.nullvalue ∧
       (do_meta_command_mode q a).1.out = q.out ∧
       (do_meta_command_mode q a).1.outfile = q.outfile)) := by
  refine ⟨?_, ?_, ?_⟩
  · simp [do_meta_command_mode]
  · simp [do_meta_command_mode]
  · rintro q a (rfl | rfl) <;> simp [do_meta_command_mode]

/- ===================================================================
   Section: per-row rendering in run_table_dump_query (src/shell.c
   lines 800-843, claim lines 818-834)
   =================================================================== -/

/-- Scan of lines 828-830: the pointer walks the first-column text until
it reads two consecutive dash characters or the end; the semicolon goes
on a line of its own exactly when the walk stops before the end, that
is, when the text contains a dash-dash sequence anywhere. -/
def containsDashDash : List Char → Bool
  | [] => false
  | [_] => false
  | c :: r :: t => (c == '-' && r == '-') || containsDashDash (r :: t)

/-- Text printed for one row before the terminator (lines 823-827): the
first column verbatim, then each further column preceded by a comma. -/
def dumpRowBody (z : String) (cols : List String) : String :=
  z ++ String.join (cols.map (fun s => (",") ++ s))

/-- One row of run_table_dump_query output (lines 818-834): the row body
followed by the semicolon terminator, on a line of its own when the
first-column text contains a dash-dash sequence and appended to the same
line otherwise. -/
def run_table_dump_row (z : String) (cols : List String) : String :=
  dumpRowBody z cols ++ (if containsDashDash z.data then ("\n;\n") else (";\n"))

theorem containsDashDash_iff (l : List Char) :
    containsDashDash l = true ↔ ['-', '-'] <:+: l := by
  induction l with
  | nil => decide
  | cons c rest ih =>
    cases rest with
    | nil =>
      constructor
      · intro h
        simp [containsDashDash] at h
      · intro h
        have := h.length_le
        simp at this
    | cons r t =>
      simp only [containsDashDash, Bool.or_eq_true, Bool.and_eq_true,
        beq_iff_eq, ih, List.infix_cons_iff, List.cons_prefix_cons,
        List.nil_prefix, and_true]
      constructor
      · rintro (⟨h1, h2⟩ | h)
        · exact Or.inl ⟨h1.symm, h2.symm⟩
        · exact Or.inr h
      · rintro (⟨h1, h2⟩ | h)
        · exact Or.inl ⟨h1.symm, h2.symm⟩
        · exact Or.inr h

/-- Claim C6 (amended): every row of the per-table dump query is written
verbatim followed by a terminating semicolon, and the semicolon is
placed on a line of its own exactly when the first-column text of a row
contains a dash-dash sequence anywhere (not only when it ends in one);
otherwise the semicolon is appended on the same line. -/
theorem claim_C6 (z : String) (cols : List String) :
    (['-', '-'] <:+: z.data →
      run_table_dump_row z cols = dumpRowBody z cols ++ ("\n;\n")) ∧
    (¬ ['-', '-'] <:+: z.data →
      run_table_dump_row z cols = dumpRowBody z cols ++ (";\n")) := by
  constructor
  · intro h
    simp [run_table_dump_row, (containsDashDash_iff z.data).mpr h]
  · intro h
    have hc : containsDashDash z.data = false := by
      cases hc : containsDashDash z.data
      · rfl
      · exact absurd ((containsDashDash_iff z.data).mp hc) h
    simp [run_table_dump_row, hc]

theorem claim_C6_witness :
    run_table_dump_row ("x -- y") [] = dumpRowBody ("x -- y") [] ++ ("\n;\n") :=
  (claim_C6 ("x -- y") []).1 (by decide)

/-- Claim C6 counterexample: for a row whose first-column text is
a -- b, the text contains a dash-dash sequence but does not end in one,
yet the code still places the semicolon on a line of its own, so the
claimed iff with the text ending in dash-dash is false. -/
theorem claim_C6_counterexample :
    run_table_dump_row ("a -- b") [] = ("a -- b") ++ ("\n;\n") ∧
    ¬ (['-', '-'] <:+ String.data ("a -- b")) ∧
    ("a -- b") ++ ("\n;\n") ≠ ("a -- b") ++ (";\n") := by
  refine ⟨by decide, by decide, by decide⟩

/- ===================================================================
   Section: input-processing loop (src/shell.c lines 2411-2516)
   =================================================================== -/

/-- The loop condition and error accounting of process_input
(lines 2418-2445): each element of the list records whether handling
that input line reported an error (a failed meta-command or a failed
statement, lines 2442-2444 and 2497).  The guard on line 2422 reads the
running error count, the bail flag and whether input is the interactive
terminal (in==0 and stdin_is_interactive); the function returns how many
lines the loop actually processes. -/
def process_input_model (bail interactive : Bool) :
    List Bool → Nat → Nat
  | [], _ => 0
  | e :: rest, errCnt =>
    if errCnt == 0 || !bail || interactive then
      1 + process_input_model bail interactive rest
            (errCnt + (if e then 1 else 0))
    else 0

theorem process_input_interactive (lines : List Bool) (bail : Bool) :
    ∀ errCnt, process_input_model bail true lines errCnt = lines.length := by
  induction lines with
  | nil => intro errCnt; simp [process_input_model]
  | cons e rest ih =>
    intro errCnt
    simp [process_input_model, ih]
    omega

theorem process_input_bail (rest : List Bool) :
    ∀ j, (∀ k, k < j → rest.getD k false = false) →
      rest.getD j false = true → j < rest.length →
      ∀ errCnt, errCnt = 0 →
        process_input_model true false rest errCnt = j + 1 := by
  induction rest with
  | nil =>
    intro j _ _ hj
    simp at hj
  | cons e rest ih =>
    intro j hok herr hj errCnt hcnt
    subst hcnt
    cases j with
    | zero =>
      simp only [List.getD_cons_zero] at herr
      subst herr
      have hstop : process_input_model true false rest 1 = 0 := by
        cases rest <;> simp [process_input_model]
      simp [process_input_model, hstop]
    | succ j2 =>
      have he : e = false := hok 0 (Nat.succ_pos j2)
      subst he
      simp only [List.getD_cons_succ] at herr
      have hih := ih j2 (fun k hk => hok (k + 1) (Nat.succ_lt_succ hk)) herr
        (by simpa using hj) 0 rfl
      simp [process_input_model, hih]
      omega

/-- Claim C7: with bail-on-error enabled and input that is not an
interactive terminal, the loop processes no further line after the first
line whose handling reports an error (it processes exactly the lines up
to and including that one); and when input is an interactive terminal
the loop processes every line regardless of the bail setting and of any
errors. -/
theorem claim_C7 (lines : List Bool) (bail : Bool) (j : Nat)
    (hj : j < lines.length)
    (hok : ∀ k, k < j → lines.getD k false = false)
    (herr : lines.getD j false = true) :
    process_input_model bail true lines 0 = lines.length ∧
    process_input_model true false lines 0 = j + 1 :=
  ⟨process_input_interactive lines bail 0,
   process_input_bail lines j hok herr hj 0 rfl⟩

theorem claim_C7_witness :
    process_input_model false true [false, true, false] 0 = 3 ∧
    process_input_model true false [false, true, false] 0 = 2 :=
  claim_C7 [false, true, false] false 1 (by decide) (by decide) (by decide)

/- ===================================================================
   Section: bulk import (.import FILE TABLE, src/shell.c
   lines 1655-1780, claim lines 1726-1779)
   =================================================================== -/

/-- Field counting of one import line (lines 1732-1746): the scan walks
the line, toggling the in-quote flag on every double quote, and counts a
separator hit whenever the flag is clear, the character equals the first
separator character and the whole separator matches at that position;
after a hit inside the column range the scan skips the rest of the
separator.  The line yields one more field than the number of hits. -/
def splitFieldCount (sep : List Char) (nCol : Nat) :
    List Char → Bool → Nat → Nat
  | [], _, i => i + 1
  | c :: rest, inQuote, i =>
    let q := if c = Char.ofNat 34 then !inQuote else inQuote
    if !q && (match sep with
              | s :: _ => c == s
              | [] => false) && sep.isPrefixOf (c :: rest) then
      if i + 1 < nCol then
        splitFieldCount sep nCol (rest.drop (sep.length - 1)) q (i + 1)
      else
        splitFieldCount sep nCol rest q (i + 1)
    else splitFieldCount sep nCol rest q i
termination_by l _ _ => l.length
decreasing_by
  · simp only [List.length_drop, List.length_cons]
    omega
  · simp only [List.length_cons]
    omega
  · simp only [List.length_cons]
    omega

/-- Per-line loop of the import (lines 1728-1775): a line whose field
count differs from the column count switches the pending transaction
end to ROLLBACK, sets the status to 1 and stops; a failed insert step
does the same after stepping the row; otherwise the row is inserted and
the loop continues.  Arguments: the remaining lines and the number of
rows already stepped; stepRc gives the engine result of resetting the
insert statement for each row index.  Returns the transaction-closing
statement, the command status and the number of rows stepped. -/
def bulkLoadLoop (sep : List Char) (nCol : Nat) (stepRc : Nat → Nat) :
    List (List Char) → Nat → String × Nat × Nat
  | [], k => (("COMMIT"), 0, k)
  | line :: rest, k =>
    if splitFieldCount sep nCol line false 0 ≠ nCol then
      (("ROLLBACK"), 1, k)
    else if stepRc k ≠ 0 then (("ROLLBACK"), 1, k + 1)
    else bulkLoadLoop sep nCol stepRc rest (k + 1)

/-- The transactional shape of .import (lines 1671-1780) once the dummy
select has produced the column count and the insert statement and input
file are open: an empty separator or a zero column count returns before
any transaction starts (lines 1672-1675 and 1692); otherwise BEGIN is
executed, the line loop runs, and the pending COMMIT or ROLLBACK is
executed after it (lines 1726-1779).  Returns the transaction
statements handed to the engine in order, the command status, and the
number of rows stepped. -/
def bulkImport (sep : List Char) (nCol : Nat) (stepRc : Nat → Nat)
    (lines : List (List Char)) : List String × Nat × Nat :=
  if sep.length = 0 then ([], 1, 0)
  else if nCol = 0 then ([], 0, 0)
  else
    let r := bulkLoadLoop sep nCol stepRc lines 0
    ([("BEGIN"), r.1], r.2.1, r.2.2)

theorem bulkLoadLoop_commit (sep : List Char) (nCol : Nat)
    (stepRc : Nat → Nat) :
    ∀ lines k, (bulkLoadLoop sep nCol stepRc lines k).1 = ("COMMIT") ↔
      ∀ j, j < lines.length →
        (splitFieldCount sep nCol (lines.getD j []) false 0 = nCol ∧
         stepRc (k + j) = 0) := by
  intro lines
  induction lines with
  | nil => intro k; simp [bulkLoadLoop]
  | cons line rest ih =>
    intro k
    by_cases hf : splitFieldCount sep nCol line false 0 = nCol
    · by_cases hs : stepRc k = 0
      · rw [show bulkLoadLoop sep nCol stepRc (line :: rest) k =
            bulkLoadLoop sep nCol stepRc rest (k + 1) by
          simp [bulkLoadLoop, hf, hs]]
        rw [ih (k + 1)]
        constructor
        · intro h j hj
          cases j with
          | zero => simpa using ⟨hf, hs⟩
          | succ j2 =>
            have := h j2 (by simpa using hj)
            simpa [Nat.add_assoc, Nat.add_comm 1 j2] using this
        · intro h j hj
          have := h (j + 1) (by simpa using hj)
          simpa [Nat.add_assoc, Nat.add_comm 1 j] using this
      · rw [show (bulkLoadLoop sep nCol stepRc (line :: rest) k).1 =
            ("ROLLBACK") by simp [bulkLoadLoop, hf, hs]]
        constructor
        · intro h
          exact absurd h (by decide)
        · intro h
          exact absurd (h 0 (by simp)).2 (by simpa using hs)
    · rw [show (bulkLoadLoop sep nCol stepRc (line :: rest) k).1 =
          ("ROLLBACK") by simp [bulkLoadLoop, hf]]
      constructor
      · intro h
        exact absurd h (by decide)
      · intro h
        exact absurd (h 0 (by simp)).1 (by simpa using hf)

theorem bulkLoadLoop_mismatch (sep : List Char) (nCol : Nat)
    (stepRc : Nat → Nat) :
    ∀ lines k j, j < lines.length →
      (∀ m, m < j →
        splitFieldCount sep nCol (lines.getD m []) false 0 = nCol ∧
        stepRc (k + m) = 0) →
      splitFieldCount sep nCol (lines.getD j []) false 0 ≠ nCol →
      bulkLoadLoop sep nCol stepRc lines k = (("ROLLBACK"), 1, k + j) := by
  intro lines
  induction lines with
  | nil =>
    intro k j hj
    simp at hj
  | cons line rest ih =>
    intro k j hj hok hbad
    cases j with
    | zero =>
      simp only [List.getD_cons_zero] at hbad
      simp [bulkLoadLoop, hbad]
    | succ j2 =>
      have h0 := hok 0 (Nat.succ_pos j2)
      simp only [List.getD_cons_zero, Nat.add_zero] at h0
      have hstep : bulkLoadLoop sep nCol stepRc (line :: rest) k =
          bulkLoadLoop sep nCol stepRc rest (k + 1) := by
        simp [bulkLoadLoop, h0.1, h0.2]
      rw [hstep]
      have hrec := ih (k + 1) j2 (by simpa using hj)
        (fun m hm => by
          have := hok (m + 1) (Nat.succ_lt_succ hm)
          simpa [Nat.add_assoc, Nat.add_comm 1 m] using this)
        (by simpa using hbad)
      rw [hrec]
      have : k + 1 + j2 = k + (j2 + 1) := by omega
      rw [this]

/-- Claim C1: every import invocation that reaches the line loop runs
inside a single transaction opened with BEGIN and closed by exactly one
COMMIT or ROLLBACK; the transaction closes with COMMIT exactly when
every line yields the expected field count and every insert succeeds;
and when the first offending line is a field-count mismatch, processing
stops at that line, the transaction closes with ROLLBACK (so no rows
from the file are committed), the command status is nonzero, and only
the rows before that line were ever stepped. -/
theorem claim_C1 (sep : List Char) (nCol : Nat) (stepRc : Nat → Nat)
    (lines : List (List Char)) (hsep : sep ≠ []) (hcol : nCol ≠ 0) :
    ((bulkImport sep nCol stepRc lines).1.head? = some ("BEGIN") ∧
     (bulkImport sep nCol stepRc lines).1.length = 2) ∧
    ((bulkImport sep nCol stepRc lines).1 = [("BEGIN"), ("COMMIT")] ↔
      ∀ j, j < lines.length →
        (splitFieldCount sep nCol (lines.getD j []) false 0 = nCol ∧
         stepRc j = 0)) ∧
    (∀ j, j < lines.length →
      (∀ m, m < j →
        splitFieldCount sep nCol (lines.getD m []) false 0 = nCol ∧
        stepRc m = 0) →
      splitFieldCount sep nCol (lines.getD j []) false 0 ≠ nCol →
      ((bulkImport sep nCol stepRc lines).1 = [("BEGIN"), ("ROLLBACK")] ∧
       (bulkImport sep nCol stepRc lines).2.1 = 1 ∧
       (bulkImport sep nCol stepRc lines).2.2 = j)) := by
  have hlen : ¬ sep.length = 0 := by
    simpa [List.length_eq_zero] using hsep
  have hrw : bulkImport sep nCol stepRc lines =
      ([("BEGIN"), (bulkLoadLoop sep nCol stepRc lines 0).1],
        (bulkLoadLoop sep nCol stepRc lines 0).2.1,
        (bulkLoadLoop sep nCol stepRc lines 0).2.2) := by
    simp [bulkImport, hlen, hcol]
  refine ⟨?_, ?_, ?_⟩
  · rw [hrw]
    exact ⟨rfl, rfl⟩
  · rw [hrw]
    have := bulkLoadLoop_commit sep nCol stepRc lines 0
    simp only [Nat.zero_add] at this
    constructor
    · intro h
      have h2 : (bulkLoadLoop sep nCol stepRc lines 0).1 = ("COMMIT") := by
        simpa using h
      exact this.mp h2
    · intro h
      have hc := this.mpr h
      simp [hc]
  · intro j hj hok hbad
    have hres := bulkLoadLoop_mismatch sep nCol stepRc lines 0 j hj
      (fun m hm => by simpa using hok m hm) hbad
    rw [hrw, hres]
    simp

theorem claim_C1_witness :
    ((bulkImport [','] 2 (fun _ => 0) [['a', ',', 'b']]).1.head? =
       some ("BEGIN") ∧
     (bulkImport [','] 2 (fun _ => 0) [['a', ',', 'b']]).1.length = 2) :=
  (claim_C1 [','] 2 (fun _ => 0) [['a', ',', 'b']]
    (by decide) (by decide)).1

/- ===================================================================
   Section: column-mode width resolution in shell_callback
   (src/shell.c lines 529-592)
   =================================================================== -/

/-- Width chosen for column i when the first row arrives
(lines 532-544): an explicitly configured nonzero width (taken from the
100-entry width table, 0 beyond it) is used as is; a zero width becomes
the header-name length raised to at least 10 and then raised to the
first-row value length.  The nested conditionals mirror the sequential
reassignments of w in the source. -/
def firstRowWidth (cw : Nat → Int) (hdrLen valLen : Nat) (i : Nat) : Int :=
  if (if i < 100 then cw i else 0) = 0 then
    (if (if (hdrLen : Int) < 10 then (10 : Int) else (hdrLen : Int)) <
        (valLen : Int)
     then (valLen : Int)
     else (if (hdrLen : Int) < 10 then (10 : Int) else (hdrLen : Int)))
  else (if i < 100 then cw i else 0)

/-- Renderer state for column mode: the 100-entry actualWidth table
(modelled as a function that is only ever written below index 100) and
the record counter. -/
structure ColModeState where
  actualWidth : Nat → Int
  cnt : Nat

/-- One invocation of shell_callback in column mode (lines 529-592):
on the first row (cnt==0) the actualWidth entries below 100 are filled
from firstRowWidth; every row is then rendered using actualWidth for
columns below 100 and the constant 10 for columns at 100 or beyond
(lines 572-578).  Returns the new state and the widths used for the
cells of this row. -/
def colModeRow (cw : Nat → Int) (hdrLens : List Nat)
    (st : ColModeState) (vals : List Nat) : ColModeState × List Int :=
  let st1 :=
    if st.cnt = 0 then
      { actualWidth := fun i =>
          if i < 100 ∧ i < vals.length then
            firstRowWidth cw (hdrLens.getD i 0) (vals.getD i 0) i
          else st.actualWidth i,
        cnt := st.cnt + 1 }
    else { st with cnt := st.cnt + 1 }
  (st1, (List.range vals.length).map
    (fun i => if i < 100 then st1.actualWidth i else 10))

/-- The rows of one result set fed through colModeRow in order. -/
def colModeRows (cw : Nat → Int) (hdrLens : List Nat) :
    ColModeState → List (List Nat) → List (List Int)
  | _, [] => []
  | st, v :: rest =>
    (colModeRow cw hdrLens st v).2 ::
      colModeRows cw hdrLens (colModeRow cw hdrLens st v).1 rest

/-- Widths used for every data cell of a result set rendered in column
mode, starting from the zero-initialized state. -/
def columnWidthsUsed (cw : Nat → Int) (hdrLens : List Nat)
    (rows : List (List Nat)) : List (List Int) :=
  colModeRows cw hdrLens ⟨fun _ => 0, 0⟩ rows

theorem firstRowWidth_auto (cw : Nat → Int) (h v i : Nat)
    (hz : (if i < 100 then cw i else 0) = 0) :
    firstRowWidth cw h v i = max (max 10 (h : Int)) (v : Int) := by
  unfold firstRowWidth
  rw [hz]
  simp only [if_pos rfl]
  have h1 : (if (h : Int) < 10 then (10 : Int) else (h : Int)) =
      max 10 (h : Int) := by
    rcases lt_or_le ((h : Int)) 10 with hlt | hle
    · simp [hlt, max_eq_left hlt.le]
    · simp [not_lt.mpr hle, max_eq_right hle]
  rw [h1]
  rcases lt_or_le (max 10 ((h : Int))) ((v : Int)) with hlt | hle
  · simp [hlt, max_eq_right hlt.le]
  · simp [not_lt.mpr hle, max_eq_left hle]

theorem colModeRows_after (cw : Nat → Int) (hdrLens : List Nat)
    (A : Nat → Int) (c : Nat) :
    ∀ rows, colModeRows cw hdrLens ⟨A, c + 1⟩ rows =
      rows.map (fun v => (List.range v.length).map
        (fun i => if i < 100 then A i else 10)) := by
  intro rows
  induction rows generalizing c with
  | nil => simp [colModeRows]
  | cons v rest ih =>
    have hrow : colModeRow cw hdrLens ⟨A, c + 1⟩ v =
        (⟨A, c + 1 + 1⟩, (List.range v.length).map
          (fun i => if i < 100 then A i else 10)) := by
      simp [colModeRow]
    simp only [colModeRows, hrow, List.map_cons]
    rw [ih (c + 1)]

theorem columnWidthsUsed_cons (cw : Nat → Int) (hdrLens : List Nat)
    (r0 : List Nat) (rest : List (List Nat)) :
    columnWidthsUsed cw hdrLens (r0 :: rest) =
      ((List.range r0.length).map (fun i => if i < 100 then
          (if i < 100 ∧ i < r0.length then
            firstRowWidth cw (hdrLens.getD i 0) (r0.getD i 0) i else 0)
        else 10)) ::
      rest.map (fun v => (List.range v.length).map (fun i => if i < 100 then
          (if i < 100 ∧ i < r0.length then
            firstRowWidth cw (hdrLens.getD i 0) (r0.getD i 0) i else 0)
        else 10)) := by
  have h1 : (colModeRow cw hdrLens ⟨fun _ => 0, 0⟩ r0).1 =
      ⟨fun i => if i < 100 ∧ i < r0.length then
          firstRowWidth cw (hdrLens.getD i 0) (r0.getD i 0) i else 0,
        0 + 1⟩ := rfl
  have h2 : (colModeRow cw hdrLens ⟨fun _ => 0, 0⟩ r0).2 =
      (List.range r0.length).map (fun i => if i < 100 then
          (if i < 100 ∧ i < r0.length then
            firstRowWidth cw (hdrLens.getD i 0) (r0.getD i 0) i else 0)
        else 10) := rfl
  simp only [columnWidthsUsed, colModeRows, h1, h2]
  rw [colModeRows_after cw hdrLens _ 0 rest]

theorem range_map_getD (f : Nat → Int) (n i : Nat) (h : i < n) :
    ((List.range n).map f).getD i 0 = f i := by
  rw [List.getD_eq_getElem?_getD, List.getElem?_map, List.getElem?_range h]
  rfl

/-- Claim C5 (amended): in column mode, for every column index i below
the 100-entry width table with configured width 0, the width used for
every data cell of the result set is max(10, header length, first-row
value length), frozen from the first row on; for every column at index
100 or beyond, every data cell uses the default width 10 (while the
width the header cell of such a column would be printed with is still
the max formula, since no table entry backs it). -/
theorem claim_C5 (cw : Nat → Int) (hdrLens r0 : List Nat)
    (rows : List (List Nat)) (i : Nat)
    (hlen : ∀ r ∈ r0 :: rows, r.length = hdrLens.length)
    (hi : i < hdrLens.length) :
    (∀ ws ∈ columnWidthsUsed cw hdrLens (r0 :: rows),
      (i < 100 → cw i = 0 →
        ws.getD i 0 = max (max 10 ((hdrLens.getD i 0 : Nat) : Int))
          ((r0.getD i 0 : Nat) : Int)) ∧
      (100 ≤ i → ws.getD i 0 = 10)) ∧
    (100 ≤ i →
      firstRowWidth cw (hdrLens.getD i 0) (r0.getD i 0) i =
        max (max 10 ((hdrLens.getD i 0 : Nat) : Int))
          ((r0.getD i 0 : Nat) : Int)) := by
  have hr0 : r0.length = hdrLens.length := hlen r0 (List.mem_cons_self r0 rows)
  constructor
  · intro ws hws
    rw [columnWidthsUsed_cons] at hws
    have hform : ∃ n, n = hdrLens.length ∧
        ws = (List.range n).map (fun j => if j < 100 then
          (if j < 100 ∧ j < r0.length then
            firstRowWidth cw (hdrLens.getD j 0) (r0.getD j 0) j else 0)
          else 10) := by
      rcases List.mem_cons.mp hws with h1 | h2
      · exact ⟨r0.length, hr0, h1⟩
      · rcases List.mem_map.mp h2 with ⟨v, hv, hveq⟩
        exact ⟨v.length, hlen v (List.mem_cons_of_mem r0 hv), hveq.symm⟩
    rcases hform with ⟨n, hn, rfl⟩
    have hin : i < n := hn ▸ hi
    rw [range_map_getD _ n i hin]
    constructor
    · intro h100 hcw
      rw [if_pos h100, if_pos ⟨h100, hr0 ▸ hi⟩]
      exact firstRowWidth_auto cw _ _ i (by simp [h100, hcw])
    · intro h100
      rw [if_neg (by omega)]
  · intro h100
    exact firstRowWidth_auto cw _ _ i (by simp [show ¬ i < 100 by omega])

theorem claim_C5_witness :
    ((columnWidthsUsed (fun _ => 0) [2] [[1]]).getD 0 []).getD 0 0 =
      max (max 10 ((([2] : List Nat).getD 0 0 : Nat) : Int))
        ((([1] : List Nat).getD 0 0 : Nat) : Int) := by
  have h := claim_C5 (fun _ => 0) [2] [1] [] 0
    (by intro r hr; simp at hr; simp [hr]) (by decide)
  exact (h.1 (((columnWidthsUsed (fun _ => 0) [2] [[1]]).getD 0 []))
    (by decide)).1 (by decide) rfl

/-- Claim C5 counterexample: with no configured widths, a result set
whose column 100 has an 18-character header and a 1-character first
value renders the data cell of column 100 with width 10, not with
max(10, 18, 1) = 18 as the claim states for columns beyond the width
table. -/
theorem claim_C5_counterexample :
    (((columnWidthsUsed (fun _ => 0) (List.replicate 101 18)
        [List.replicate 101 1]).getD 0 []).getD 100 0 = 10) ∧
    ((10 : Int) ≠ max (max 10 (18 : Int)) (1 : Int)) := by
  constructor
  · decide
  · decide

/- ===================================================================
   Section: meta-command tokenizer (src/shell.c lines 1290-1317 and
   1426-1452)
   =================================================================== -/

/-- The backslash character. -/
def bslash : Char := Char.ofNat 92

/-- The single-quote character. -/
def squote : Char := Char.ofNat 39

/-- The double-quote character. -/
def dquote : Char := Char.ofNat 34

/-- The IsSpace classification used by the tokenizer (isspace over the
ASCII range: space, tab, newline, vertical tab, form feed, carriage
return). -/
def IsSpaceChar (c : Char) : Bool :=
  c == ' ' || c == Char.ofNat 9 || c == Char.ofNat 10 ||
  c == Char.ofNat 11 || c == Char.ofNat 12 || c == Char.ofNat 13

/-- Octal digit test of resolve_backslashes (line 1302). -/
def isOctalDigit (c : Char) : Bool := 48 ≤ c.toNat && c.toNat ≤ 55

/-- Value of an octal digit. -/
def octVal (c : Char) : Nat := c.toNat - 48

/-- resolve_backslashes (lines 1290-1317): C-style dequoting of
backslash-n, backslash-t, backslash-r, one to three octal digits, and
any other escaped character kept as itself (so a doubled backslash
yields one).  A trailing lone backslash makes the source write the
terminating NUL, ending the string there, which the model renders as
ending the list.  The three-octal-digit case wraps at 256 as the char
arithmetic of the source does. -/
def resolveBackslashes : List Char → List Char
  | [] => []
  | c :: rest =>
    if c = bslash then
      match rest with
      | [] => []
      | e :: r2 =>
        if e = 'n' then Char.ofNat 10 :: resolveBackslashes r2
        else if e = 't' then Char.ofNat 9 :: resolveBackslashes r2
        else if e = 'r' then Char.ofNat 13 :: resolveBackslashes r2
        else if isOctalDigit e then
          match r2 with
          | e2 :: r3 =>
            if isOctalDigit e2 then
              match r3 with
              | e3 :: r4 =>
                if isOctalDigit e3 then
                  Char.ofNat (((octVal e * 8 + octVal e2) * 8 + octVal e3) % 256)
                    :: resolveBackslashes r4
                else
                  Char.ofNat (octVal e * 8 + octVal e2) ::
                    resolveBackslashes (e3 :: r4)
              | [] => [Char.ofNat (octVal e * 8 + octVal e2)]
            else Char.ofNat (octVal e) :: resolveBackslashes (e2 :: r3)
          | [] => [Char.ofNat (octVal e)]
        else e :: resolveBackslashes r2
    else c :: resolveBackslashes rest
termination_by l => l.length
decreasing_by
  all_goals simp only [List.length_cons]
  all_goals omega

/-- Advance past a consumed delimiter or separator character when one
is present (the source overwrites it with NUL and advances). -/
def dropDelim : List Char → List Char
  | [] => []
  | _ :: r => r

/-- One iteration of the tokenizer loop body (lines 1435-1451): skip
spaces; stop at end of line; a token opened by a single or double quote
runs to the matching quote (or end of line) and is backslash-resolved
only for a double quote; an unquoted token starts at the current
non-space character, runs to the next space, and is always
backslash-resolved.  Returns the finished token and the rest of the
line, or none when only spaces remain. -/
def nextToken (l : List Char) : Option (List Char × List Char) :=
  match List.dropWhile IsSpaceChar l with
  | [] => none
  | d :: rest =>
    if d == squote || d == dquote then
      some ((if d = dquote then
          resolveBackslashes (List.takeWhile (fun x => x != d) rest)
        else List.takeWhile (fun x => x != d) rest),
        dropDelim (List.dropWhile (fun x => x != d) rest))
    else
      some (resolveBackslashes
          (d :: List.takeWhile (fun x => !IsSpaceChar x) rest),
        dropDelim (List.dropWhile (fun x => !IsSpaceChar x) rest))

theorem dropWhile_length_le (p : Char → Bool) (l : List Char) :
    (List.dropWhile p l).length ≤ l.length := by
  induction l with
  | nil => simp
  | cons c r ih =>
    rw [List.dropWhile_cons]
    by_cases h : p c = true
    · rw [if_pos h]
      exact Nat.le_succ_of_le ih
    · rw [if_neg h]

theorem dropDelim_length_le (l : List Char) :
    (dropDelim l).length ≤ l.length := by
  cases l <;> simp [dropDelim]

theorem nextToken_length {l : List Char} {t rest : List Char}
    (h : nextToken l = some (t, rest)) : rest.length < l.length := by
  unfold nextToken at h
  split at h
  · exact absurd h (by simp)
  · next d r0 heq =>
    have hlen : r0.length + 1 ≤ l.length := by
      have h2 := dropWhile_length_le IsSpaceChar l
      rw [heq] at h2
      simpa using h2
    split at h <;>
    · simp only [Option.some.injEq, Prod.mk.injEq] at h
      have h3 : rest.length ≤ r0.length := by
        rw [← h.2]
        exact Nat.le_trans (dropDelim_length_le _)
          (dropWhile_length_le _ r0)
      omega

/-- Tokenizer loop of do_meta_command (lines 1433-1452): the loop
condition requires text left on the line and fewer than 50 stored
tokens (the fixed capacity of azArg), so tokenization stops as soon as
50 tokens have been collected. -/
def tokAux : List Char → Nat → List (List Char)
  | l, n =>
    if l = [] ∨ 50 ≤ n then []
    else
      match h : nextToken l with
      | none => []
      | some (t, rest) => t :: tokAux rest (n + 1)
termination_by l _ => l.length
decreasing_by
  exact nextToken_length h

/-- Reference tokenizer without the 50-token capacity bound, used only
to state that the capped tokenizer ignores whatever of the line lies
beyond the fiftieth token. -/
def tokAll : List Char → List (List Char)
  | l =>
    match h : nextToken l with
    | none => []
    | some (t, rest) => t :: tokAll rest
termination_by l => l.length
decreasing_by
  exact nextToken_length h

/-- The tokenization step of do_meta_command: the scan starts at index
1, after the leading dot of the command line. -/
def do_meta_tokenize (zLine : List Char) : List (List Char) :=
  tokAux (zLine.drop 1) 0

theorem tokAux_stop (l : List Char) (n : Nat) (h : l = [] ∨ 50 ≤ n) :
    tokAux l n = [] := by
  rw [tokAux]
  rw [if_pos h]

theorem tokAux_none (l : List Char) (n : Nat) (hne : ¬(l = [] ∨ 50 ≤ n))
    (hnt : nextToken l = none) : tokAux l n = [] := by
  rw [tokAux, if_neg hne]
  split
  · rfl
  · next t rest heq =>
    rw [hnt] at heq
    exact absurd heq (by simp)

theorem tokAux_some (l : List Char) (n : Nat) (hne : ¬(l = [] ∨ 50 ≤ n))
    {t rest : List Char} (hnt : nextToken l = some (t, rest)) :
    tokAux l n = t :: tokAux rest (n + 1) := by
  rw [tokAux, if_neg hne]
  split
  · next heq =>
    rw [hnt] at heq
    exact absurd heq (by simp)
  · next t2 rest2 heq =>
    rw [hnt] at heq
    simp only [Option.some.injEq, Prod.mk.injEq] at heq
    rw [heq.1, heq.2]

theorem tokAll_none (l : List Char) (hnt : nextToken l = none) :
    tokAll l = [] := by
  rw [tokAll]
  split
  · rfl
  · next t rest heq =>
    rw [hnt] at heq
    exact absurd heq (by simp)

theorem tokAll_some (l : List Char) {t rest : List Char}
    (hnt : nextToken l = some (t, rest)) :
    tokAll l = t :: tokAll rest := by
  rw [tokAll]
  split
  · next heq =>
    rw [hnt] at heq
    exact absurd heq (by simp)
  · next t2 rest2 heq =>
    rw [hnt] at heq
    simp only [Option.some.injEq, Prod.mk.injEq] at heq
    rw [heq.1, heq.2]

theorem tokAux_take : ∀ N l n, List.length l ≤ N → n ≤ 50 →
    tokAux l n = (tokAll l).take (50 - n) := by
  intro N
  induction N with
  | zero =>
    intro l n hl _
    have hnil : l = [] := List.length_eq_zero.mp (Nat.le_zero.mp hl)
    subst hnil
    rw [tokAux_stop [] n (Or.inl rfl), tokAll_none [] (by simp [nextToken])]
    simp
  | succ N ih =>
    intro l n hl hn
    by_cases hstop : l = [] ∨ 50 ≤ n
    · rcases hstop with  rfl | h50
      · rw [tokAux_stop [] n (Or.inl rfl), tokAll_none [] (by simp [nextToken])]
        simp
      · have hn50 : n = 50 := Nat.le_antisymm hn h50
        subst hn50
        rw [tokAux_stop l 50 (Or.inr le_rfl)]
        simp
    · cases hnt : nextToken l with
      | none =>
        rw [tokAux_none l n hstop hnt, tokAll_none l hnt]
        simp
      | some pr =>
        obtain ⟨t, rest⟩ := pr
        have hlt := nextToken_length hnt
        have hne2 : ¬(l = [] ∨ 50 ≤ n) := hstop
        rw [tokAux_some l n hne2 hnt, tokAll_some l hnt]
        have hrest : List.length rest ≤ N := by omega
        have hn2 : n + 1 ≤ 50 := by
          rcases Nat.lt_or_ge n 50 with h1 | h1
          · omega
          · exact absurd (Or.inr h1) hstop
        rw [ih rest (n + 1) hrest hn2]
        have hpos : 50 - n = (50 - (n + 1)) + 1 := by omega
        rw [hpos, List.take_succ_cons]

/-- Claim C9: for every meta-command line, the tokenizer collects at
most 50 tokens, the fixed capacity of the azArg array (so the array is
never indexed out of bounds), and the tokens collected are exactly the
first 50 the unbounded scan of the same text would produce, any text
beyond them being ignored. -/
theorem claim_C9 (zLine : List Char) :
    (do_meta_tokenize zLine).length ≤ 50 ∧
    do_meta_tokenize zLine = (tokAll (zLine.drop 1)).take 50 := by
  have h := tokAux_take (List.length (zLine.drop 1)) (zLine.drop 1) 0
    le_rfl (by omega)
  constructor
  · rw [do_meta_tokenize, h]
    simp only [Nat.sub_zero, List.length_take]
    omega
  · rw [do_meta_tokenize, h]

theorem takeWhile_all {α : Type} (p : α → Bool) :
    ∀ l : List α, (∀ c ∈ l, p c = true) → List.takeWhile p l = l := by
  intro l
  induction l with
  | nil => intro _; simp
  | cons c r ih =>
    intro h
    rw [List.takeWhile_cons, if_pos (h c (List.mem_cons_self c r)),
      ih (fun x hx => h x (List.mem_cons_of_mem c hx))]

theorem dropWhile_all {α : Type} (p : α → Bool) :
    ∀ l : List α, (∀ c ∈ l, p c = true) → List.dropWhile p l = [] := by
  intro l
  induction l with
  | nil => intro _; simp
  | cons c r ih =>
    intro h
    rw [List.dropWhile_cons, if_pos (h c (List.mem_cons_self c r)),
      ih (fun x hx => h x (List.mem_cons_of_mem c hx))]

theorem dropWhile_keep {α : Type} (p : α → Bool) :
    ∀ l : List α, (∀ c ∈ l, p c = false) → List.dropWhile p l = l := by
  intro l h
  cases l with
  | nil => simp
  | cons c r =>
    rw [List.dropWhile_cons,
      if_neg (by simp [h c (List.mem_cons_self c r)])]

theorem takeWhile_append_stop {α : Type} (p : α → Bool) (b : α) (t : List α)
    (hb : p b = false) :
    ∀ l : List α, (∀ c ∈ l, p c = true) →
      List.takeWhile p (l ++ b :: t) = l := by
  intro l
  induction l with
  | nil =>
    intro _
    rw [List.nil_append, List.takeWhile_cons, if_neg (by simp [hb])]
  | cons c r ih =>
    intro h
    rw [List.cons_append, List.takeWhile_cons,
      if_pos (h c (List.mem_cons_self c r)),
      ih (fun x hx => h x (List.mem_cons_of_mem c hx))]

theorem dropWhile_append_stop {α : Type} (p : α → Bool) (b : α) (t : List α)
    (hb : p b = false) :
    ∀ l : List α, (∀ c ∈ l, p c = true) →
      List.dropWhile p (l ++ b :: t) = b :: t := by
  intro l
  induction l with
  | nil =>
    intro _
    rw [List.nil_append, List.dropWhile_cons, if_neg (by simp [hb])]
  | cons c r ih =>
    intro h
    rw [List.cons_append, List.dropWhile_cons,
      if_pos (h c (List.mem_cons_self c r)),
      ih (fun x hx => h x (List.mem_cons_of_mem c hx))]

theorem nextToken_eq (l : List Char) (d : Char) (r0 : List Char)
    (hd : List.dropWhile IsSpaceChar l = d :: r0) :
    nextToken l =
      (if d == squote || d == dquote then
        some ((if d = dquote then
            resolveBackslashes (List.takeWhile (fun x => x != d) r0)
          else List.takeWhile (fun x => x != d) r0),
          dropDelim (List.dropWhile (fun x => x != d) r0))
      else
        some (resolveBackslashes
            (d :: List.takeWhile (fun x => !IsSpaceChar x) r0),
          dropDelim (List.dropWhile (fun x => !IsSpaceChar x) r0))) := by
  unfold nextToken
  rw [hd]

/-- Claim C10: backslash escape resolution is applied to every unquoted
token exactly as it is to double-quoted tokens, and only single-quoted
tokens are kept verbatim: a token text with no spaces and no quote
characters tokenizes to its backslash-resolved form when written bare
and when written inside double quotes, and to its verbatim form when
written inside single quotes. -/
theorem claim_C10 (s : List Char) (hne : s ≠ [])
    (hall : ∀ c ∈ s, IsSpaceChar c = false ∧ c ≠ squote ∧ c ≠ dquote) :
    do_meta_tokenize ('.' :: s) = [resolveBackslashes s] ∧
    do_meta_tokenize ('.' :: dquote :: (s ++ [dquote])) =
      [resolveBackslashes s] ∧
    do_meta_tokenize ('.' :: squote :: (s ++ [squote])) = [s] := by
  have hcond : ∀ (x : List Char), x ≠ [] → ¬(x = [] ∨ 50 ≤ (0 : Nat)) := by
    intro x hx h
    rcases h with h | h
    · exact hx h
    · omega
  have htail : tokAux ([] : List Char) 1 = [] :=
    tokAux_stop [] 1 (Or.inl rfl)
  refine ⟨?_, ?_, ?_⟩
  · -- bare token
    obtain ⟨a, s2, rfl⟩ : ∃ a s2, s = a :: s2 := by
      cases s with
      | nil => exact absurd rfl hne
      | cons a s2 => exact ⟨a, s2, rfl⟩
    have ha := hall a (List.mem_cons_self a s2)
    have hd : List.dropWhile IsSpaceChar (a :: s2) = a :: s2 :=
      dropWhile_keep IsSpaceChar (a :: s2) (fun c hc => (hall c hc).1)
    have hq : (a == squote || a == dquote) = false := by
      simp [ha.2.1, ha.2.2]
    have htake : List.takeWhile (fun x => !IsSpaceChar x) s2 = s2 :=
      takeWhile_all _ s2 (fun c hc => by
        simp [(hall c (List.mem_cons_of_mem a hc)).1])
    have hdrop : List.dropWhile (fun x => !IsSpaceChar x) s2 = [] :=
      dropWhile_all _ s2 (fun c hc => by
        simp [(hall c (List.mem_cons_of_mem a hc)).1])
    have hnt : nextToken (a :: s2) =
        some (resolveBackslashes (a :: s2), []) := by
      rw [nextToken_eq (a :: s2) a s2 hd, if_neg (by simp [hq]),
        htake, hdrop]
      rfl
    have hstep := tokAux_some (a :: s2) 0
      (hcond (a :: s2) (List.cons_ne_nil a s2)) hnt
    calc do_meta_tokenize ('.' :: a :: s2)
        = tokAux (a :: s2) 0 := by simp [do_meta_tokenize]
      _ = resolveBackslashes (a :: s2) :: tokAux [] 1 := hstep
      _ = [resolveBackslashes (a :: s2)] := by rw [htail]
  · -- double-quoted token
    have hd : List.dropWhile IsSpaceChar (dquote :: (s ++ [dquote])) =
        dquote :: (s ++ [dquote]) := by
      rw [List.dropWhile_cons, if_neg (by decide)]
    have htake : List.takeWhile (fun x => x != dquote) (s ++ [dquote]) = s :=
      takeWhile_append_stop _ dquote [] (by simp) s
        (fun c hc => by simp [(hall c hc).2.2])
    have hdrop : List.dropWhile (fun x => x != dquote) (s ++ [dquote]) =
        [dquote] :=
      dropWhile_append_stop _ dquote [] (by simp) s
        (fun c hc => by simp [(hall c hc).2.2])
    have hnt : nextToken (dquote :: (s ++ [dquote])) =
        some (resolveBackslashes s, []) := by
      rw [nextToken_eq _ dquote (s ++ [dquote]) hd, if_pos (by simp),
        htake, hdrop, if_pos rfl]
      rfl
    have hstep := tokAux_some (dquote :: (s ++ [dquote])) 0
      (hcond _ (List.cons_ne_nil _ _)) hnt
    calc do_meta_tokenize ('.' :: dquote :: (s ++ [dquote]))
        = tokAux (dquote :: (s ++ [dquote])) 0 := by simp [do_meta_tokenize]
      _ = resolveBackslashes s :: tokAux [] 1 := hstep
      _ = [resolveBackslashes s] := by rw [htail]
  · -- single-quoted token
    have hd : List.dropWhile IsSpaceChar (squote :: (s ++ [squote])) =
        squote :: (s ++ [squote]) := by
      rw [List.dropWhile_cons, if_neg (by decide)]
    have htake : List.takeWhile (fun x => x != squote) (s ++ [squote]) = s :=
      takeWhile_append_stop _ squote [] (by simp) s
        (fun c hc => by simp [(hall c hc).2.1])
    have hdrop : List.dropWhile (fun x => x != squote) (s ++ [squote]) =
        [squote] :=
      dropWhile_append_stop _ squote [] (by simp) s
        (fun c hc => by simp [(hall c hc).2.1])
    have hnt : nextToken (squote :: (s ++ [squote])) = some (s, []) := by
      rw [nextToken_eq _ squote (s ++ [squote]) hd, if_pos (by simp),
        htake, hdrop, if_neg (by decide)]
      rfl
    have hstep := tokAux_some (squote :: (s ++ [squote])) 0
      (hcond _ (List.cons_ne_nil _ _)) hnt
    calc do_meta_tokenize ('.' :: squote :: (s ++ [squote]))
        = tokAux (squote :: (s ++ [squote])) 0 := by simp [do_meta_tokenize]
      _ = s :: tokAux [] 1 := hstep
      _ = [s] := by rw [htail]

theorem claim_C10_witness :
    do_meta_tokenize ('.' :: ['a', Char.ofNat 92, 'n']) =
      [resolveBackslashes ['a', Char.ofNat 92, 'n']] ∧
    do_meta_tokenize ('.' :: dquote ::
        (['a', Char.ofNat 92, 'n'] ++ [dquote])) =
      [resolveBackslashes ['a', Char.ofNat 92, 'n']] ∧
    do_meta_tokenize ('.' :: squote ::
        (['a', Char.ofNat 92, 'n'] ++ [squote])) =
      [['a', Char.ofNat 92, 'n']] :=
  claim_C10 ['a', Char.ofNat 92, 'n'] (by decide) (by decide)
